import Mathlib

/-!
Shallow embedding of the fob_data repository (src/fob_analysis.py) and a
verification of the design claims about it.

The script has two cores:

* a report segmenter (parse_pdf_to_dfs, lines 61..189) that cuts a raw grid
  of text cells into sections and emits per-product records, and
* a table reconciler (update_summary_workbook, lines 230..382) that merges
  per-date record batches into a persisted per-product table and rewrites
  the table range.

A pdfplumber grid cell is either missing (None) or text, so it is modelled
as Option String.  A spreadsheet cell seen by the reconciler is modelled by
the inductive type Cell.  File reading and writing, pandas dtypes and log
output are outside the model; every definition below is translated from the
named lines of the source file.
-/

namespace Fob

/-! ## Report segmenter: grid model -/

/-- A pdfplumber grid row: each cell is either missing (None) or text. -/
abbrev GRow := List (Option String)

/-- Python truthiness of an extracted cell: None and the empty string are
falsy, every other string is truthy. -/
def truthy : Option String → Bool
  | none => false
  | some s => s != ""

/-- The text payload of a cell.  The source only reads str(cell) behind a
truthiness guard, so the default for a missing cell is never observed. -/
def cellStr (c : Option String) : String := c.getD ""

/-- startsWithL p l is true when p is an initial segment of l. -/
def startsWithL : List Char → List Char → Bool
  | [], _ => true
  | _ :: _, [] => false
  | a :: as, b :: bs => a == b && startsWithL as bs

/-- subList p l is true when p occurs contiguously inside l. -/
def subList : List Char → List Char → Bool
  | p, [] => p.isEmpty
  | p, c :: rest => startsWithL p (c :: rest) || subList p rest

/-- The Python substring test (needle in haystack) on strings. -/
def hasSub (pat s : String) : Bool := subList pat.toList s.toList

/-- ASCII whitespace, the characters removed by the Python strip method. -/
def isWs (c : Char) : Bool :=
  c == ' ' || c == '\t' || c == '\n' || c == '\r' || c == '\x0b' || c == '\x0c'

/-- Python str.strip(): drop whitespace from both ends. -/
def pyStrip (s : String) : String :=
  String.mk (((s.toList.dropWhile isWs).reverse.dropWhile isWs).reverse)

/-- Python indexing r[i]: an error when i is out of bounds. -/
def pyAt (r : GRow) (i : Nat) : Except Unit (Option String) :=
  match r[i]? with
  | some c => Except.ok c
  | none => Except.error ()

/-- Total header classifier for one grid row, from lines 86..97 of the
source: trimmed text in the second column, which is not a vs row, and a
blank first column. -/
def isHeader (r : GRow) : Bool :=
  let c1 := r.getD 1 none
  if truthy c1 && pyStrip (cellStr c1) != "" then
    if hasSub "vs" (cellStr c1) then false
    else !(truthy (r.getD 0 none) && pyStrip (cellStr (r.getD 0 none)) != "")
  else false

/-- The same classification as executed by Python, where reading row[1] or
row[0] raises an IndexError when the row is shorter (lines 89..94): row[1]
is always read; row[0] is read only for a non vs row with text in the
second column. -/
def headerTest (r : GRow) : Except Unit Bool :=
  match pyAt r 1 with
  | Except.error e => Except.error e
  | Except.ok c1 =>
    if truthy c1 && pyStrip (cellStr c1) != "" then
      if hasSub "vs" (cellStr c1) then Except.ok false
      else
        match pyAt r 0 with
        | Except.error e => Except.error e
        | Except.ok c0 => Except.ok (!(truthy c0 && pyStrip (cellStr c0) != ""))
    else Except.ok false

/-- The scan of lines 85..97: visit rows top to bottom and collect the
indices of the header rows, aborting if an access raises.  The guard
i < len(raw_data) of line 89 is always true under enumerate and is
dropped. -/
def scanRows (i : Nat) : List GRow → Except Unit (List Nat)
  | [] => Except.ok []
  | r :: rest =>
    match headerTest r with
    | Except.error e => Except.error e
    | Except.ok b =>
      match scanRows (i + 1) rest with
      | Except.error e => Except.error e
      | Except.ok tail => Except.ok (if b then i :: tail else tail)

/-- section_starts of line 85, for a whole grid. -/
def sectionStarts (g : List GRow) : Except Unit (List Nat) := scanRows 0 g

/-- Reference list of header indices built with the total classifier. -/
def headerIdxs (i : Nat) : List GRow → List Nat
  | [] => []
  | r :: rest =>
    if isHeader r then i :: headerIdxs (i + 1) rest else headerIdxs (i + 1) rest

/-! ## Report segmenter: data rows and records -/

/-- Lines 126..136: a candidate data row is kept iff its first cell is
truthy, its trimmed text is nonempty, contains neither Price nor Disclaimer,
and is at most 15 characters long.  Every row of a section reached through
the scan has at least 2 cells (see the treatment of C10), so reading the
first cell with a None default is faithful on reachable rows. -/
def validRow (r : GRow) : Bool :=
  if !(truthy (r.getD 0 none)) || pyStrip (cellStr (r.getD 0 none)) == "" then false
  else
    let val := pyStrip (cellStr (r.getD 0 none))
    !(hasSub "Price" val || hasSub "Disclaimer" val || decide (15 < val.length))

/-- Line 149: the first column of block i inside a section. -/
def colStart (i : Nat) : Nat := 1 + i * 4

/-- Lines 157..160: slice the 4 cells of block i out of a row and pad the
slice with None up to length 4. -/
def chunkOf (r : GRow) (i : Nat) : GRow :=
  let c := (r.drop (colStart i)).take 4
  c ++ List.replicate (4 - c.length) none

/-- One extracted record, the dict of lines 162..169. -/
structure Entry where
  month : String
  comp : Option String
  chg1 : Option String
  flat : Option String
  chg2 : Option String
  date : Int
deriving DecidableEq

/-- Lines 162..169: the record built from one valid row and one block. -/
def mkEntry (d : Int) (i : Nat) (r : GRow) : Entry :=
  let chunk := chunkOf r i
  { month := pyStrip (cellStr (r.getD 0 none))
    comp := chunk.getD 0 none
    chg1 := chunk.getD 1 none
    flat := chunk.getD 2 none
    chg2 := chunk.getD 3 none
    date := d }

/-- Lines 121..171: the records of block i of one section.  Rows 0 and 1 of
the section are header and subheader; rows from index 2 on are filtered by
validRow; a surviving row shorter than the first block column emits nothing
for that block (line 155). -/
def blockRecords (d : Int) (sec : List GRow) (i : Nat) : List Entry :=
  ((sec.drop 2).filter validRow).filterMap
    (fun r => if colStart i < r.length then some (mkEntry d i r) else none)

/-- Lines 178..182: the comparison-label column name taken from the
subheader row of the section, falling back to the generic label. -/
def vsHeader (sec : List GRow) (i : Nat) : String :=
  if 1 < sec.length && colStart i < (sec.getD 1 []).length then
    let val := (sec.getD 1 []).getD (colStart i) none
    if truthy val then pyStrip (cellStr val) else "vs"
  else "vs"

/-! ## Table reconciler: cells, tables, batches -/

/-- A spreadsheet cell as the reconciler sees it.  date d is a value already
of datetime kind with day number d; dateText d is a text cell that the
pandas datetime coercion parses to day number d; text s is a cell whose text
does not parse as a date; empty is a missing value (NaN). -/
inductive Cell where
  | empty : Cell
  | text : String → Cell
  | dateText : Int → Cell
  | date : Int → Cell
deriving DecidableEq

/-- Lines 302 and 327, pd.to_datetime with coercion of errors, on one cell:
date-like values become canonical dates, everything else becomes NaT. -/
def coerceCell : Cell → Cell
  | Cell.date d => Cell.date d
  | Cell.dateText d => Cell.date d
  | _ => Cell.empty

/-- The date carried by a coerced cell, if any. -/
def cellDate : Cell → Option Int
  | Cell.date d => some d
  | _ => none

/-- The date of a row read at column index i. -/
def rowDateAt (i : Nat) (r : List Cell) : Option Int :=
  cellDate (r.getD i Cell.empty)

/-- The datetime coercion applied in place to column i of one row. -/
def coerceRow (i : Nat) (r : List Cell) : List Cell :=
  r.set i (coerceCell (r.getD i Cell.empty))

/-- A cell counted as missing by pandas dropna and notna. -/
def isNa : Cell → Bool
  | Cell.empty => true
  | _ => false

/-- Lines 352..353, the Month guard on one cell: present and with nonblank
text.  str of a datetime value is never blank. -/
def monthOK : Cell → Bool
  | Cell.empty => false
  | Cell.text s => pyStrip s != ""
  | Cell.dateText _ => true
  | Cell.date _ => true

/-- Lines 351..353 on one row: the row survives the cleanup iff some cell is
present (dropna with how all) and, when a Month column exists, its Month
cell is nonblank.  The source applies the two filters in sequence; they are
independent pointwise tests, so they are merged into one predicate. -/
def survives (headers : List String) (r : List Cell) : Bool :=
  !(r.all isNa) &&
    (match headers.indexOf? "Month" with
     | some mi => monthOK (r.getD mi Cell.empty)
     | none => true)

/-- One daily per-product batch file as read at line 323: its own column
names and its rows. -/
structure Batch where
  headers : List String
  rows : List (List Cell)
deriving DecidableEq

/-- One persisted product table: header names, data rows, and the cell range
of the table (lines 281..294).  The header row of a table always lies inside
its range, so the empty-data check of line 287 has no counterpart here. -/
structure Table where
  headers : List String
  rows : List (List Cell)
  minCol : Nat
  minRow : Nat
  maxCol : Nat
  maxRow : Nat
deriving DecidableEq

/-- Line 327: the datetime coercion of the Date column of a daily file, at
the position of Date among the batch headers, when present. -/
def coerceBatchRow (b : Batch) (r : List Cell) : List Cell :=
  match b.headers.indexOf? "Date" with
  | some j => coerceRow j r
  | none => r

/-- Lines 321..343, one iteration of the batch loop.  A batch whose headers
contain Date twice makes the datetime coercion of line 327 raise, and the
handler of line 342 turns that into a skip; a batch whose column count
differs from the summary column count is skipped with the warning of line
341; otherwise the batch rows are admitted after coercion, the positional
renaming of line 338 mapping field j of a record onto summary column j. -/
def admitBatch (tHeaders : List String) (b : Batch) : Option (List (List Cell)) :=
  if 2 ≤ b.headers.count "Date" then none
  else if b.headers.length = tHeaders.length then some (b.rows.map (coerceBatchRow b))
  else none

/-! ## Table reconciler: sort and merge -/

/-- Ascending comparison of coerced dates with missing dates last, the key
order of sort_values on the Date column with na_position last. -/
def dle : Option Int → Option Int → Bool
  | _, none => true
  | none, some _ => false
  | some a, some b => decide (a ≤ b)

/-- Insert one row into a list sorted by date. -/
def insRow (di : Nat) (r : List Cell) : List (List Cell) → List (List Cell)
  | [] => [r]
  | x :: xs =>
    if dle (rowDateAt di r) (rowDateAt di x) then r :: x :: xs
    else x :: insRow di r xs

/-- Line 356, df.sort_values on Date, modelled as an insertion sort on the
date key.  The pandas default sort kind is quicksort, which the pandas
documentation does not guarantee to be stable, so the claims below rely only
on permutation facts about this function; the tie order of this model is a
modelling choice, see the treatment of claim C4. -/
def sortByDate (di : Nat) : List (List Cell) → List (List Cell)
  | [] => []
  | x :: xs => insRow di x (sortByDate di xs)

/-- Line 302: the in-memory frame of the table, its Date column coerced. -/
def coercedRows (t : Table) (di : Nat) : List (List Cell) :=
  t.rows.map (coerceRow di)

/-- Line 305: the set of dates already present in the table. -/
def tableDates (t : Table) (di : Nat) : List Int :=
  (coercedRows t di).filterMap (rowDateAt di)

/-- Lines 308..311: updates_needed, the batches whose key date is absent
from the table; this is the sole duplicate prevention. -/
def neededB (t : Table) (di : Nat) (B : List (Int × Batch)) : List (Int × Batch) :=
  B.filter (fun p => !((tableDates t di).contains p.1))

/-- Lines 320..343: new_rows, the admitted frames of the needed batches. -/
def admittedRows (t : Table) (di : Nat) (B : List (Int × Batch)) : List (List (List Cell)) :=
  (neededB t di B).filterMap (fun p => admitBatch t.headers p.2)

/-- Lines 347..356: concatenation, cleanup and sort of the merged rows. -/
def mergedRows (t : Table) (di : Nat) (B : List (Int × Batch)) : List (List Cell) :=
  sortByDate di
    ((coercedRows t di ++ (admittedRows t di B).flatten).filter (survives t.headers))

/-- Lines 279..377, the per-table merge, given the index di of Date among
the table headers: coerce the Date column (line 302), collect the existing
dates (line 305), keep the batches whose key date is absent (lines 308..311),
admit the compatible ones (lines 320..343), concatenate (lines 347..348),
clean up (lines 351..353), sort (line 356) and recompute the range (lines
373..375).  When no batch is needed (line 313) or none is admitted (line
345) the persisted table is untouched. -/
def reconcileCore (t : Table) (di : Nat) (B : List (Int × Batch)) : Table :=
  if (neededB t di B).isEmpty then t
  else if (admittedRows t di B).isEmpty then t
  else
    { t with rows := mergedRows t di B
             maxRow := t.minRow + (1 + (mergedRows t di B).length) - 1 }

/-- Lines 294..375 for one table.  A table without a Date column is skipped
with a warning (lines 297..299).  A table whose headers contain Date more
than once makes the column selection of line 302 feed a whole frame to the
datetime coercion, which raises, and no handler inside
update_summary_workbook catches it.  Otherwise the merge runs. -/
def reconcileE (t : Table) (B : List (Int × Batch)) : Except Unit Table :=
  if t.headers.contains "Date" then
    if 2 ≤ t.headers.count "Date" then Except.error ()
    else Except.ok (reconcileCore t ((t.headers.indexOf? "Date").getD 0) B)
  else Except.ok t

/-! ## The workbook loop -/

/-- Lines 30..45: the fixed ordered list of the 28 product sheet names. -/
def SHEET_NAMES : List String := [
  "SRW_US_Gulf", "HRW_Texas_Gulf", "HRW_US_PNW", "White_Wheat_US_PNW",
  "DNS_US_PNW", "No1_Milling_DNS", "Argentine_Wheat", "French_Wheat",
  "Russian_Milling_Wheat", "Ukrainian_Milling_Wheat", "Russian_Corn", "Ukrainian_Corn",
  "Gulf_Corn", "PNW_Corn", "Argentine_Corn", "Brazilian_Corn",
  "Gulf_Soybeans", "Argentine_Soybeans", "Brazilian_Soybeans", "Canadian_Canola",
  "Gulf_Soyoil", "Argentine_Soyoil", "Brazilian_Soyoil", "Malaysian_Olein",
  "Gulf_Soymeal", "Argentine_Soymeal_Pellets", "Brazilian_Soymeal_Pellets", "Indian_Soymeal"]

/-- The workbook: each sheet name maps to its table, or to none when the
sheet has no table (line 266).  A name absent from the list is a sheet
absent from the workbook (line 259). -/
abbrev Wb := List (String × Option Table)

/-- Store the updated table back under its sheet name. -/
def setSheet (wb : Wb) (nm : String) (t : Table) : Wb :=
  wb.map (fun p => if p.1 == nm then (p.1, some t) else p)

/-- Lines 258..375 for one sheet name: a missing sheet (line 259) or a sheet
without a table (line 266) is skipped with a warning; otherwise the merge
runs on the table of the sheet and its result replaces it.  There is no
handler around this body, so an exception of the merge propagates out of the
whole loop. -/
def stepSheet (B : List (Int × Batch)) (wb : Wb) (nm : String) : Except Unit Wb :=
  match wb.lookup nm with
  | none => Except.ok wb
  | some none => Except.ok wb
  | some (some t) => (reconcileE t B).map (setSheet wb nm)

/-- Lines 257..377: the loop over SHEET_NAMES, with no per-sheet handler. -/
def updateAll (wb : Wb) (B : List (Int × Batch)) : Except Unit Wb :=
  SHEET_NAMES.foldlM (stepSheet B) wb

/-- The merge with the error case mapped to the untouched table; used to
describe what the loop would compute with per-sheet isolation. -/
def reconcileT (t : Table) (B : List (Int × Batch)) : Table :=
  match reconcileE t B with
  | Except.ok u => u
  | Except.error _ => t

/-- One totalised sheet step. -/
def stepSheetT (B : List (Int × Batch)) (wb : Wb) (nm : String) : Wb :=
  match wb.lookup nm with
  | some (some t) => setSheet wb nm (reconcileT t B)
  | _ => wb

/-- The totalised loop over SHEET_NAMES. -/
def updateAllT (wb : Wb) (B : List (Int × Batch)) : Wb :=
  SHEET_NAMES.foldl (stepSheetT B) wb

/-! ## Basic lemmas about cells and sorting -/

theorem coerceCell_idem (c : Cell) : coerceCell (coerceCell c) = coerceCell c := by
  cases c <;> rfl

theorem getD_coerceRow (di : Nat) (r : List Cell) :
    (coerceRow di r).getD di Cell.empty = coerceCell (r.getD di Cell.empty) := by
  induction r generalizing di with
  | nil => simp [coerceRow, coerceCell]
  | cons c cs ih =>
    cases di with
    | zero => rfl
    | succ n => simpa [coerceRow, List.set] using ih n

theorem rowDateAt_coerceRow (di : Nat) (r : List Cell) :
    rowDateAt di (coerceRow di r) = cellDate (coerceCell (r.getD di Cell.empty)) := by
  unfold rowDateAt
  rw [getD_coerceRow]

theorem coerceRow_idem (di : Nat) (r : List Cell) :
    coerceRow di (coerceRow di r) = coerceRow di r := by
  conv =>
    lhs
    rw [coerceRow]
  rw [getD_coerceRow, coerceCell_idem, coerceRow, List.set_set]

theorem cellDate_eq_some {c : Cell} {d : Int} (h : cellDate c = some d) :
    c = Cell.date d := by
  cases c with
  | empty => simp [cellDate] at h
  | text s => simp [cellDate] at h
  | dateText e => simp [cellDate] at h
  | date e => simp [cellDate] at h; rw [h]

theorem rowDateAt_coerceRow_of_date {di : Nat} {r : List Cell} {d : Int}
    (h : rowDateAt di r = some d) : rowDateAt di (coerceRow di r) = some d := by
  rw [rowDateAt_coerceRow]
  unfold rowDateAt at h
  rw [cellDate_eq_some h]
  rfl

theorem insRow_perm (di : Nat) (r : List Cell) (l : List (List Cell)) :
    List.Perm (insRow di r l) (r :: l) := by
  induction l with
  | nil => simp [insRow]
  | cons x xs ih =>
    rw [insRow]
    split
    · exact List.Perm.refl _
    · exact (List.Perm.cons x ih).trans (List.Perm.swap r x xs)

theorem sortByDate_perm (di : Nat) (l : List (List Cell)) :
    List.Perm (sortByDate di l) l := by
  induction l with
  | nil => simp [sortByDate]
  | cons x xs ih => exact (insRow_perm di x (sortByDate di xs)).trans (List.Perm.cons x ih)

theorem mem_sortByDate {di : Nat} {l : List (List Cell)} {r : List Cell} :
    r ∈ sortByDate di l ↔ r ∈ l :=
  (sortByDate_perm di l).mem_iff

theorem length_sortByDate (di : Nat) (l : List (List Cell)) :
    (sortByDate di l).length = l.length :=
  (sortByDate_perm di l).length_eq

/-! ## Basic lemmas about the merge -/

theorem reconcileCore_headers (t : Table) (di : Nat) (B : List (Int × Batch)) :
    (reconcileCore t di B).headers = t.headers := by
  unfold reconcileCore
  split
  · rfl
  · split <;> rfl

theorem mem_tableDates {t : Table} {di : Nat} {d : Int} :
    d ∈ tableDates t di ↔ ∃ r ∈ t.rows, rowDateAt di (coerceRow di r) = some d := by
  simp only [tableDates, coercedRows, List.mem_filterMap, List.mem_map]
  constructor
  · rintro ⟨x, ⟨r, hr, rfl⟩, hx⟩
    exact ⟨r, hr, hx⟩
  · rintro ⟨r, hr, h⟩
    exact ⟨coerceRow di r, ⟨r, hr, rfl⟩, h⟩

/-! ## Lemmas about the section-header scan -/

theorem headerTest_eq_ok : ∀ (r : GRow), 2 ≤ r.length →
    headerTest r = Except.ok (isHeader r)
  | a :: b :: rest, _ => by
    show headerTest (a :: b :: rest) = Except.ok (isHeader (a :: b :: rest))
    rw [headerTest, isHeader]
    simp only [pyAt, List.getElem?_cons_succ, List.getElem?_cons_zero,
      List.getD_cons_succ, List.getD_cons_zero]
    split
    · split
      · rfl
      · rfl
    · rfl

theorem headerTest_eq_error : ∀ (r : GRow), r.length < 2 →
    headerTest r = Except.error ()
  | [], _ => rfl
  | [_], _ => rfl
  | _ :: _ :: rest, h => by
    simp only [List.length_cons] at h
    omega

theorem length_of_headerTest_ok {r : GRow} {b : Bool}
    (h : headerTest r = Except.ok b) : 2 ≤ r.length := by
  by_cases hl : 2 ≤ r.length
  · exact hl
  · rw [headerTest_eq_error r (by omega)] at h
    exact absurd h (by simp)

theorem scanRows_eq_ok {g : List GRow} {i : Nat} {ss : List Nat}
    (h : scanRows i g = Except.ok ss) : ss = headerIdxs i g := by
  induction g generalizing i ss with
  | nil =>
    rw [scanRows] at h
    injection h with h
    rw [headerIdxs, h]
  | cons r rest ih =>
    rw [scanRows] at h
    cases hb : headerTest r with
    | error e => rw [hb] at h; exact absurd h (by simp)
    | ok b =>
      rw [hb] at h
      cases ht : scanRows (i + 1) rest with
      | error e => rw [ht] at h; exact absurd h (by simp)
      | ok tail =>
        rw [ht] at h
        injection h with h
        have hlen := length_of_headerTest_ok hb
        have hb2 := headerTest_eq_ok r hlen
        rw [hb] at hb2
        injection hb2 with hb2
        rw [headerIdxs, ← hb2, ← ih ht, h]

theorem scanRows_ok_of_len : ∀ (g : List GRow) (i : Nat),
    (∀ r ∈ g, 2 ≤ r.length) → scanRows i g = Except.ok (headerIdxs i g)
  | [], _, _ => rfl
  | r :: rest, i, h => by
    rw [scanRows, headerTest_eq_ok r (h r (by simp)),
      scanRows_ok_of_len rest (i + 1) (fun x hx => h x (by simp [hx])), headerIdxs]

theorem mem_headerIdxs : ∀ (g : List GRow) (i k : Nat),
    k ∈ headerIdxs i g ↔
      ∃ j, j < g.length ∧ k = i + j ∧ isHeader (g.getD j []) = true := by
  intro g
  induction g with
  | nil => intro i k; simp [headerIdxs]
  | cons r rest ih =>
    intro i k
    rw [headerIdxs]
    constructor
    · intro hk
      by_cases hr : isHeader r = true
      · rw [if_pos hr] at hk
        rcases List.mem_cons.mp hk with h0 | h1
        · exact ⟨0, by simp, by omega, by simpa [List.getD_cons_zero] using hr⟩
        · rcases (ih (i + 1) k).mp h1 with ⟨j, hj, hkj, hh⟩
          refine ⟨j + 1, ?_, by omega, by simpa [List.getD_cons_succ] using hh⟩
          simp only [List.length_cons]
          omega
      · rw [if_neg hr] at hk
        rcases (ih (i + 1) k).mp hk with ⟨j, hj, hkj, hh⟩
        refine ⟨j + 1, ?_, by omega, by simpa [List.getD_cons_succ] using hh⟩
        simp only [List.length_cons]
        omega
    · rintro ⟨j, hj, rfl, hh⟩
      cases j with
      | zero =>
        rw [List.getD_cons_zero] at hh
        rw [if_pos hh]
        simp
      | succ j =>
        have hmem : i + (j + 1) ∈ headerIdxs (i + 1) rest := by
          refine (ih (i + 1) (i + (j + 1))).mpr ⟨j, ?_, by omega, ?_⟩
          · simpa using Nat.lt_of_succ_lt_succ hj
          · simpa [List.getD_cons_succ] using hh
        split
        · exact List.mem_cons_of_mem _ hmem
        · exact hmem

theorem le_of_mem_headerIdxs : ∀ (g : List GRow) (i k : Nat),
    k ∈ headerIdxs i g → i ≤ k := by
  intro g
  induction g with
  | nil => intro i k hk; simp [headerIdxs] at hk
  | cons r rest ih =>
    intro i k hk
    rw [headerIdxs] at hk
    split at hk
    · rcases List.mem_cons.mp hk with h0 | h1
      · omega
      · have := ih (i + 1) k h1; omega
    · have := ih (i + 1) k hk; omega

theorem pairwise_headerIdxs : ∀ (g : List GRow) (i : Nat),
    (headerIdxs i g).Pairwise (fun a b => a < b) := by
  intro g
  induction g with
  | nil => intro i; simp [headerIdxs]
  | cons r rest ih =>
    intro i
    rw [headerIdxs]
    split
    · refine List.Pairwise.cons ?_ (ih (i + 1))
      intro b hb
      have := le_of_mem_headerIdxs rest (i + 1) b hb
      omega
    · exact ih (i + 1)

/-! ## Lemmas about data rows and record blocks -/

theorem pyStrip_empty : pyStrip "" = "" := by decide

theorem getD_chunkOf (r : GRow) (i j : Nat) (hj : j < 4) :
    (chunkOf r i).getD j none = r.getD (colStart i + j) none := by
  unfold chunkOf
  rw [List.getD_eq_getElem?_getD, List.getD_eq_getElem?_getD]
  by_cases hlt : j < ((r.drop (colStart i)).take 4).length
  · rw [List.getElem?_append, if_pos hlt, List.getElem?_take, if_pos hj,
      List.getElem?_drop]
  · push_neg at hlt
    have hcond : j - ((r.drop (colStart i)).take 4).length <
        4 - ((r.drop (colStart i)).take 4).length := by
      omega
    rw [List.getElem?_append_right hlt, List.getElem?_replicate, if_pos hcond]
    have hlen : ((r.drop (colStart i)).take 4).length = min 4 (r.drop (colStart i)).length := by
      rw [List.length_take]
    have hdrop : (r.drop (colStart i)).length = r.length - colStart i := by
      simp
    have hout : r.length ≤ colStart i + j := by
      rw [hlen, hdrop] at hlt
      omega
    rw [List.getElem?_eq_none hout]
    rfl

theorem validRow_eq (r : GRow) :
    validRow r =
      (truthy (r.getD 0 none) && pyStrip (cellStr (r.getD 0 none)) != "" &&
        !(hasSub "Price" (pyStrip (cellStr (r.getD 0 none)))) &&
        !(hasSub "Disclaimer" (pyStrip (cellStr (r.getD 0 none)))) &&
        !(decide (15 < (pyStrip (cellStr (r.getD 0 none))).length))) := by
  unfold validRow
  cases ht : truthy (r.getD 0 none) with
  | false => rfl
  | true =>
    cases he : pyStrip (cellStr (r.getD 0 none)) == "" with
    | true =>
      have hb : (pyStrip (cellStr (r.getD 0 none)) != "") = false := by
        show (!(pyStrip (cellStr (r.getD 0 none)) == "")) = false
        rw [he]
        rfl
      rw [hb]
      rfl
    | false =>
      have hb : (pyStrip (cellStr (r.getD 0 none)) != "") = true := by
        show (!(pyStrip (cellStr (r.getD 0 none)) == "")) = true
        rw [he]
        rfl
      rw [hb]
      simp only [Bool.true_and, Bool.not_or, Bool.and_assoc]
      rfl

end Fob

deriving instance DecidableEq for Except

namespace Fob

/-! ## Claims about the segmenter -/

/-- C6: a row at index i of the grid is classified as a section header iff
grid[i][1] is nonempty text, grid[i][1] does not contain the token vs, and
grid[i][0] is blank (the classifier isHeader, translated from lines 86..97);
all such indices, in top to bottom order, become the section boundaries. -/
theorem claim_C6 (g : List GRow) (ss : List Nat)
    (h : sectionStarts g = Except.ok ss) :
    (∀ k, k ∈ ss ↔ (k < g.length ∧ isHeader (g.getD k []) = true)) ∧
      ss.Pairwise (fun a b => a < b) := by
  unfold sectionStarts at h
  have hss : ss = headerIdxs 0 g := scanRows_eq_ok h
  subst hss
  constructor
  · intro k
    rw [mem_headerIdxs]
    constructor
    · rintro ⟨j, hj, rfl, hh⟩
      constructor
      · omega
      · simpa using hh
    · rintro ⟨hk, hh⟩
      exact ⟨k, hk, by omega, hh⟩
  · exact pairwise_headerIdxs g 0

/-- A small grid whose first row is a section header and whose second row is
a data row. -/
def c6g : List GRow := [[none, some "Wheat"], [some "Jan", some "1"]]

/-- Witness for C6 at a concrete grid. -/
theorem claim_C6_witness :
    (∀ k, k ∈ [0] ↔ (k < c6g.length ∧ isHeader (c6g.getD k []) = true)) ∧
      ([0] : List Nat).Pairwise (fun a b => a < b) :=
  claim_C6 c6g [0] (by decide)

/-- C7: a candidate data row (rows 2 and later of a section) is accepted iff
its first cell is truthy and its stripped text neither contains Price or
Disclaimer nor is longer than 15 characters; a row rejected this way is
silently dropped and excluded from the record sets of all 4 blocks of the
section. -/
theorem claim_C7 :
    (∀ r : GRow, validRow r =
      (truthy (r.getD 0 none) && pyStrip (cellStr (r.getD 0 none)) != "" &&
        !(hasSub "Price" (pyStrip (cellStr (r.getD 0 none)))) &&
        !(hasSub "Disclaimer" (pyStrip (cellStr (r.getD 0 none)))) &&
        !(decide (15 < (pyStrip (cellStr (r.getD 0 none))).length)))) ∧
    (∀ (d : Int) (pre post : List GRow) (r : GRow) (i : Nat),
      2 ≤ pre.length → i < 4 → validRow r = false →
      blockRecords d (pre ++ r :: post) i = blockRecords d (pre ++ post) i) := by
  constructor
  · exact validRow_eq
  · intro d pre post r i hpre _ hr
    unfold blockRecords
    rw [List.drop_append_of_le_length hpre, List.drop_append_of_le_length hpre,
      List.filter_append, List.filter_append, List.filter_cons, if_neg (by rw [hr]; simp)]

/-- Witness for C7: a disclaimer row is excluded from the records of block 1
of a concrete section. -/
theorem claim_C7_witness :
    blockRecords 0
      ([[none, some "Wheat"], [none, some "vs W"]] ++
        [some "Disclaimer text that is long"] :: [[some "Jan", some "1"]]) 1 =
      blockRecords 0
        ([[none, some "Wheat"], [none, some "vs W"]] ++ [[some "Jan", some "1"]]) 1 :=
  claim_C7.2 0 [[none, some "Wheat"], [none, some "vs W"]]
    [[some "Jan", some "1"]] [some "Disclaimer text that is long"] 1
    (by decide) (by decide) (by decide)

/-- A section with one valid data row of only 2 cells: block 0 yields one
record, block 1 is never reached by the row. -/
def c8sec : List GRow := [[none, some "HDR"], [none, some "vs W"], [some "Jan", some "1.0"]]

/-- Counterexample to C8 as stated: the section c8sec has exactly one valid
data row, yet block 1 emits no record for it, because line 155 of the source
skips a row that does not extend past the first column of the block instead
of treating its missing cells as empty. -/
theorem claim_C8_counterexample :
    ((c8sec.drop 2).filter validRow).length = 1 ∧ blockRecords 0 c8sec 1 = [] := by
  constructor
  · decide
  · decide

/-- C8 (amended): for every valid data row that extends past the first
column of a block, exactly one record is emitted, whose cells are read at
the block offsets with missing trailing cells treated as empty; and the
comparison-label column name falls back to the generic vs when the
subheader cell is missing or empty.  Rows that do not reach the block are
skipped, not padded. -/
theorem claim_C8 (d : Int) (sec : List GRow) (i : Nat) :
    (blockRecords d sec i =
      ((sec.drop 2).filter validRow).filterMap
        (fun r => if colStart i < r.length then
          some { month := pyStrip (cellStr (r.getD 0 none)),
                 comp := r.getD (colStart i) none,
                 chg1 := r.getD (colStart i + 1) none,
                 flat := r.getD (colStart i + 2) none,
                 chg2 := r.getD (colStart i + 3) none,
                 date := d } else none)) ∧
    (((sec.getD 1 []).getD (colStart i) none = none ∨
        (sec.getD 1 []).getD (colStart i) none = some "") →
      vsHeader sec i = "vs") := by
  constructor
  · unfold blockRecords
    congr 1
    funext r
    split
    · have h0 := getD_chunkOf r i 0 (by omega)
      have h1 := getD_chunkOf r i 1 (by omega)
      have h2 := getD_chunkOf r i 2 (by omega)
      have h3 := getD_chunkOf r i 3 (by omega)
      rw [Nat.add_zero] at h0
      rw [mkEntry, h0, h1, h2, h3]
    · rfl
  · intro h
    unfold vsHeader
    split
    · rcases h with h | h
      · rw [h]
        rfl
      · rw [h]
        rfl
    · rfl

/-- Witness for C8 at a concrete section: the subheader cell of block 1 is
out of range, so the label falls back. -/
theorem claim_C8_witness : vsHeader c8sec 1 = "vs" :=
  (claim_C8 0 c8sec 1).2 (by decide)

/-- C10: the section-header scan reads cells 0 and 1 of every row without a
bounds guard; it is total on every grid all of whose rows have at least 2
cells, and it raises an indexing error on a grid containing a shorter row
instead of treating the missing cell as empty. -/
theorem claim_C10 :
    (∀ g : List GRow, (∀ r ∈ g, 2 ≤ r.length) →
      ∃ ss, sectionStarts g = Except.ok ss) ∧
    ((∃ r ∈ ([[some "x"]] : List GRow), r.length < 2) ∧
      sectionStarts [[some "x"]] = Except.error ()) := by
  refine ⟨?_, ⟨[some "x"], by simp, by simp⟩, rfl⟩
  intro g hg
  exact ⟨headerIdxs 0 g, scanRows_ok_of_len g 0 hg⟩

/-- Witness for C10 on a concrete well-formed grid. -/
theorem claim_C10_witness : ∃ ss, sectionStarts c6g = Except.ok ss :=
  claim_C10.1 c6g (by decide)

/-! ## Case analysis of the merge -/

/-- Every successful merge either leaves the table untouched or rewrites its
rows and range as in lines 364..375. -/
theorem reconcileE_ok_cases {t u : Table} {B : List (Int × Batch)}
    (h : reconcileE t B = Except.ok u) :
    u = t ∨
      (t.headers.contains "Date" = true ∧ ¬ 2 ≤ t.headers.count "Date" ∧
        (neededB t ((t.headers.indexOf? "Date").getD 0) B).isEmpty = false ∧
        (admittedRows t ((t.headers.indexOf? "Date").getD 0) B).isEmpty = false ∧
        u = { t with
              rows := mergedRows t ((t.headers.indexOf? "Date").getD 0) B
              maxRow := t.minRow +
                (1 + (mergedRows t ((t.headers.indexOf? "Date").getD 0) B).length) - 1 }) := by
  unfold reconcileE at h
  split at h
  case isTrue hc =>
    split at h
    case isTrue hdup => exact absurd h (by simp)
    case isFalse hdup =>
      injection h with h
      unfold reconcileCore at h
      split at h
      case isTrue hne => exact Or.inl h.symm
      case isFalse hne =>
        split at h
        case isTrue hae => exact Or.inl h.symm
        case isFalse hae =>
          refine Or.inr ⟨hc, hdup, ?_, ?_, h.symm⟩
          · simpa using hne
          · simpa using hae
  case isFalse hc =>
    injection h with h
    exact Or.inl h.symm

/-- The merge result depends on the batches only through the admitted rows. -/
theorem reconcileCore_eq_of_admitted (t : Table) (di : Nat) (B B2 : List (Int × Batch))
    (ha : admittedRows t di B = admittedRows t di B2) :
    reconcileCore t di B = reconcileCore t di B2 := by
  unfold reconcileCore
  by_cases h1 : (neededB t di B).isEmpty
  · have e1 : admittedRows t di B = [] := by
      unfold admittedRows
      rw [List.isEmpty_iff.mp h1]
      rfl
    rw [if_pos h1]
    by_cases h2 : (neededB t di B2).isEmpty
    · rw [if_pos h2]
    · rw [if_neg h2, if_pos (by rw [← ha, e1]; rfl)]
  · rw [if_neg h1]
    by_cases hA : (admittedRows t di B).isEmpty
    · rw [if_pos hA]
      by_cases h2 : (neededB t di B2).isEmpty
      · rw [if_pos h2]
      · rw [if_neg h2, if_pos (by rw [← ha]; exact hA)]
    · have h2 : ¬ (neededB t di B2).isEmpty = true := by
        intro h2
        apply hA
        rw [ha]
        unfold admittedRows
        rw [List.isEmpty_iff.mp h2]
        rfl
      rw [if_neg hA, if_neg h2, if_neg (by rw [← ha]; exact hA)]
      unfold mergedRows
      rw [ha]

theorem admitBatch_eq_none (tH : List String) (b : Batch)
    (h : b.headers.length ≠ tH.length) : admitBatch tH b = none := by
  unfold admitBatch
  by_cases hc : 2 ≤ b.headers.count "Date"
  · rw [if_pos hc]
  · rw [if_neg hc, if_neg h]

theorem admitBatch_congr (tH : List String) (b b2 : Batch)
    (hrows : b2.rows = b.rows) (hlen : b2.headers.length = b.headers.length)
    (hidx : b2.headers.indexOf? "Date" = b.headers.indexOf? "Date")
    (hcount : b2.headers.count "Date" = b.headers.count "Date") :
    admitBatch tH b2 = admitBatch tH b := by
  unfold admitBatch coerceBatchRow
  rw [hcount, hlen, hidx, hrows]

theorem neededB_append (t : Table) (di : Nat) (B B2 : List (Int × Batch)) :
    neededB t di (B ++ B2) = neededB t di B ++ neededB t di B2 := by
  unfold neededB
  rw [List.filter_append]

/-- The two ifs of reconcileE do not look at the batches, so equal cores
give equal merges. -/
theorem reconcileE_congr_core (t : Table) (B B2 : List (Int × Batch))
    (h : reconcileCore t ((t.headers.indexOf? "Date").getD 0) B =
      reconcileCore t ((t.headers.indexOf? "Date").getD 0) B2) :
    reconcileE t B = reconcileE t B2 := by
  unfold reconcileE
  split
  · split
    · rfl
    · rw [h]
  · rfl

/-! ## Concrete tables and batches used by witnesses and counterexamples -/

/-- A two-column table with one row dated day 3. -/
def exT : Table :=
  ⟨["Month", "Date"], [[Cell.text "Jan", Cell.date 3]], 1, 1, 2, 2⟩

/-- A compatible one-record batch dated day 5. -/
def exb : Batch := ⟨["Month", "Date"], [[Cell.text "Feb", Cell.date 5]]⟩

/-- One compatible batch, key date 5, one record dated day 5. -/
def exB : List (Int × Batch) := [(5, exb)]

/-- The merge of exT with exB. -/
def exT1 : Table :=
  ⟨["Month", "Date"],
    [[Cell.text "Jan", Cell.date 3], [Cell.text "Feb", Cell.date 5]], 1, 1, 2, 3⟩

/-! ## Claims about the reconciler: column alignment and range -/

/-- C3: batch record fields are mapped onto the table columns by position,
never by header name, and a batch whose column count differs from the table
column count is rejected and excluded, leaving the merge result exactly as
if that batch had not been offered.  First part: dropping a mismatched batch
from the batch list does not change the result.  Second part: the result
depends on the batch headers only through their length, the position of the
Date column, and the multiplicity of the Date name, never through any other
column name. -/
theorem claim_C3 :
    (∀ (t : Table) (B1 B2 : List (Int × Batch)) (d : Int) (b : Batch),
      b.headers.length ≠ t.headers.length →
      reconcileE t (B1 ++ (d, b) :: B2) = reconcileE t (B1 ++ B2)) ∧
    (∀ (t : Table) (B1 B2 : List (Int × Batch)) (d : Int) (b b2 : Batch),
      b2.rows = b.rows → b2.headers.length = b.headers.length →
      b2.headers.indexOf? "Date" = b.headers.indexOf? "Date" →
      b2.headers.count "Date" = b.headers.count "Date" →
      reconcileE t (B1 ++ (d, b2) :: B2) = reconcileE t (B1 ++ (d, b) :: B2)) := by
  constructor
  · intro t B1 B2 d b hmis
    apply reconcileE_congr_core
    apply reconcileCore_eq_of_admitted
    unfold admittedRows
    rw [neededB_append, neededB_append]
    unfold neededB
    simp only [List.filter_cons]
    split
    · have hN := admitBatch_eq_none t.headers b hmis
      simp only [List.filterMap_append, List.filterMap_cons, hN]
    · rfl
  · intro t B1 B2 d b b2 hrows hlen hidx hcount
    apply reconcileE_congr_core
    apply reconcileCore_eq_of_admitted
    unfold admittedRows
    rw [neededB_append, neededB_append]
    unfold neededB
    simp only [List.filter_cons]
    split
    · have hc := admitBatch_congr t.headers b b2 hrows hlen hidx hcount
      simp only [List.filterMap_append, List.filterMap_cons, hc]
    · rfl

/-- A batch with 3 columns against the 2-column table exT. -/
def mmB : Batch := ⟨["Month", "vs", "Date"], [[Cell.text "Feb", Cell.empty, Cell.date 9]]⟩

/-- The batch of exB with its non-Date header renamed. -/
def rnB : Batch := ⟨["Whatever", "Date"], [[Cell.text "Feb", Cell.date 5]]⟩

/-- Witness for C3: the mismatched batch mmB changes nothing, and renaming
the non-Date header of the admitted batch changes nothing. -/
theorem claim_C3_witness :
    reconcileE exT ([] ++ (9, mmB) :: exB) = reconcileE exT ([] ++ exB) ∧
      reconcileE exT ([] ++ (5, rnB) :: []) = reconcileE exT ([] ++ (5, exb) :: []) :=
  ⟨claim_C3.1 exT [] exB 9 mmB (by decide),
    claim_C3.2 exT [] [] 5 exb rnB (by decide) (by decide) (by decide) (by decide)⟩

/-- C5: when the merge mutates the rows of a table, the recomputed range
keeps min_col and min_row, keeps max_col, and sets max_row equal to
min_row plus one header row plus the number of data rows minus one
(lines 373..375 of the source). -/
theorem claim_C5 (t : Table) (B : List (Int × Batch)) (u : Table)
    (h : reconcileE t B = Except.ok u) (hne : u.rows ≠ t.rows) :
    u.minCol = t.minCol ∧ u.minRow = t.minRow ∧ u.maxCol = t.maxCol ∧
      u.maxRow = t.minRow + 1 + u.rows.length - 1 := by
  rcases reconcileE_ok_cases h with rfl | ⟨_, _, _, _, hu⟩
  · exact absurd rfl hne
  · subst hu
    refine ⟨rfl, rfl, rfl, ?_⟩
    show t.minRow + (1 + (mergedRows t ((t.headers.indexOf? "Date").getD 0) B).length) - 1 =
      t.minRow + 1 + (mergedRows t ((t.headers.indexOf? "Date").getD 0) B).length - 1
    omega

/-- Witness for C5 at the concrete merge of exT with exB. -/
theorem claim_C5_witness :
    exT1.minCol = exT.minCol ∧ exT1.minRow = exT.minRow ∧ exT1.maxCol = exT.maxCol ∧
      exT1.maxRow = exT.minRow + 1 + exT1.rows.length - 1 :=
  claim_C5 exT exB exT1 (by decide) (by decide)

/-! ## Idempotence of the merge -/

theorem contains_iff {l : List Int} {a : Int} : l.contains a = true ↔ a ∈ l :=
  List.elem_iff

theorem admitBatch_eq_some {tH : List String} {b : Batch}
    (h : admitBatch tH b ≠ none) :
    admitBatch tH b = some (b.rows.map (coerceBatchRow b)) := by
  unfold admitBatch at h ⊢
  by_cases hc : 2 ≤ b.headers.count "Date"
  · rw [if_pos hc] at h
    exact absurd rfl h
  · rw [if_neg hc] at h ⊢
    by_cases hl : b.headers.length = tH.length
    · rw [if_pos hl]
    · rw [if_neg hl] at h
      exact absurd rfl h

theorem mem_mergedRows {t : Table} {di : Nat} {B : List (Int × Batch)} {x : List Cell} :
    x ∈ mergedRows t di B ↔
      ((x ∈ coercedRows t di ∨ x ∈ (admittedRows t di B).flatten) ∧
        survives t.headers x = true) := by
  unfold mergedRows
  rw [mem_sortByDate, List.mem_filter, List.mem_append]

/-- C1 (amended): the merge is idempotent provided the table needs no
cleanup (every existing row survives the filters of lines 351..353 after
date coercion) and every admissible batch carries at least one record whose
Date field equals the key date of the batch and which survives the cleanup.
Under these hypotheses a second merge with the same batches leaves the
result of the first merge unchanged. -/
theorem claim_C1 (t : Table) (B : List (Int × Batch)) (u : Table)
    (hclean : ∀ r ∈ t.rows,
      survives t.headers (coerceRow ((t.headers.indexOf? "Date").getD 0) r) = true)
    (hbatch : ∀ p ∈ B, admitBatch t.headers p.2 ≠ none →
      ∃ r ∈ p.2.rows,
        rowDateAt ((t.headers.indexOf? "Date").getD 0) (coerceBatchRow p.2 r) = some p.1 ∧
        survives t.headers (coerceBatchRow p.2 r) = true)
    (h : reconcileE t B = Except.ok u) :
    reconcileE u B = Except.ok u := by
  rcases reconcileE_ok_cases h with rfl | ⟨hc, hdup, hne, hae, hu⟩
  · exact h
  · set di := (t.headers.indexOf? "Date").getD 0 with hdi
    have hhead : u.headers = t.headers := by rw [hu]
    have hrows : u.rows = mergedRows t di B := by rw [hu]
    have hkey : ∀ p ∈ B, (!(tableDates u di).contains p.1) = true →
        admitBatch t.headers p.2 = none := by
      intro p hp hpd
      by_contra hnone
      rcases hbatch p hp hnone with ⟨r, hr, hrd, hrs⟩
      have hxmem : ∃ x ∈ u.rows, rowDateAt di (coerceRow di x) = some p.1 := by
        by_cases hp1 : (tableDates t di).contains p.1 = true
        · have hmem : p.1 ∈ tableDates t di := contains_iff.mp hp1
          rcases mem_tableDates.mp hmem with ⟨r0, hr0, hr0d⟩
          refine ⟨coerceRow di r0, ?_, ?_⟩
          · rw [hrows, mem_mergedRows]
            refine ⟨Or.inl ?_, hclean r0 hr0⟩
            unfold coercedRows
            exact List.mem_map_of_mem _ hr0
          · rw [coerceRow_idem]
            exact hr0d
        · have hpneed : p ∈ neededB t di B := by
            unfold neededB
            rw [List.mem_filter]
            refine ⟨hp, ?_⟩
            rw [Bool.not_eq_true] at hp1
            rw [hp1]
            rfl
          have hA := admitBatch_eq_some hnone
          have hvmem : (p.2.rows.map (coerceBatchRow p.2)) ∈ admittedRows t di B := by
            unfold admittedRows
            rw [List.mem_filterMap]
            exact ⟨p, hpneed, hA⟩
          refine ⟨coerceBatchRow p.2 r, ?_, ?_⟩
          · rw [hrows, mem_mergedRows]
            refine ⟨Or.inr ?_, hrs⟩
            rw [List.mem_flatten]
            exact ⟨_, hvmem, List.mem_map_of_mem _ hr⟩
          · exact rowDateAt_coerceRow_of_date hrd
      rcases hxmem with ⟨x, hx, hxd⟩
      have hcontains : (tableDates u di).contains p.1 = true :=
        contains_iff.mpr (mem_tableDates.mpr ⟨x, hx, hxd⟩)
      rw [hcontains] at hpd
      simp at hpd
    have hadml : admittedRows u di B = [] := by
      unfold admittedRows
      rw [List.filterMap_eq_nil_iff]
      intro p hp
      unfold neededB at hp
      rw [List.mem_filter] at hp
      rw [hhead]
      exact hkey p hp.1 hp.2
    have hcore : reconcileCore u di B = u := by
      unfold reconcileCore
      by_cases h1 : (neededB u di B).isEmpty
      · rw [if_pos h1]
      · rw [if_neg h1, if_pos (by rw [hadml]; rfl)]
    unfold reconcileE
    rw [hhead, if_pos hc, if_neg hdup, hcore]

/-- A batch whose key date (day 10) differs from the Date field of its only
record (day 11). -/
def c1B : List (Int × Batch) :=
  [(10, ⟨["Month", "Date"], [[Cell.text "Mar", Cell.date 11]]⟩)]

/-- The first merge of exT with c1B. -/
def c1T1 : Table :=
  ⟨["Month", "Date"],
    [[Cell.text "Jan", Cell.date 3], [Cell.text "Mar", Cell.date 11]], 1, 1, 2, 3⟩

/-- The second merge: the batch is admitted again, because the sole
duplicate check of lines 308..311 looks for the key date 10 in the Date
column and never finds it there. -/
def c1T2 : Table :=
  ⟨["Month", "Date"],
    [[Cell.text "Jan", Cell.date 3], [Cell.text "Mar", Cell.date 11],
      [Cell.text "Mar", Cell.date 11]], 1, 1, 2, 4⟩

/-- Counterexample to C1 as stated: merging exT with c1B twice does not
equal merging once; the record row is appended at each run. -/
theorem claim_C1_counterexample :
    reconcileE exT c1B = Except.ok c1T1 ∧ reconcileE c1T1 c1B = Except.ok c1T2 ∧
      c1T2 ≠ c1T1 := by
  refine ⟨by decide, by decide, by decide⟩

/-- Witness for C1 at the concrete merge of exT with exB. -/
theorem claim_C1_witness : reconcileE exT1 exB = Except.ok exT1 :=
  claim_C1 exT exB exT1 (by decide) (by decide) (by decide)

/-! ## Uniqueness of dates -/

theorem map_dateKey_coercedRows (t : Table) (di : Nat) :
    (coercedRows t di).map (fun r => rowDateAt di (coerceRow di r)) =
      t.rows.map (fun r => rowDateAt di (coerceRow di r)) := by
  unfold coercedRows
  rw [List.map_map]
  apply List.map_congr_left
  intro r _
  show rowDateAt di (coerceRow di (coerceRow di r)) = rowDateAt di (coerceRow di r)
  rw [coerceRow_idem]

/-- The date keys of the admitted rows, in order, form a sublist of the
key dates of the offered batches, when every admissible batch has at most
one record, stamped with its own key date. -/
theorem dates_of_admitted (t : Table) (di : Nat) (L : List (Int × Batch))
    (hb : ∀ p ∈ L, admitBatch t.headers p.2 ≠ none →
      p.2.rows.length ≤ 1 ∧
        ∀ r ∈ p.2.rows, rowDateAt di (coerceBatchRow p.2 r) = some p.1) :
    List.Sublist
      (((L.filterMap (fun p => admitBatch t.headers p.2)).flatten).map
        (fun x => rowDateAt di (coerceRow di x)))
      (L.map (fun p => some p.1)) := by
  induction L with
  | nil => simp
  | cons p rest ih =>
    have hrest := fun q hq hqa => hb q (List.mem_cons_of_mem p hq) hqa
    cases hA : admitBatch t.headers p.2 with
    | none =>
      simp only [List.filterMap_cons, hA, List.map_cons]
      exact (ih hrest).cons _
    | some v =>
      have hvne : admitBatch t.headers p.2 ≠ none := by
        rw [hA]
        simp
      have hv : v = p.2.rows.map (coerceBatchRow p.2) := by
        have hs := admitBatch_eq_some hvne
        rw [hA] at hs
        injection hs
      obtain ⟨hlen1, hdates⟩ := hb p (List.mem_cons_self p rest) hvne
      subst hv
      simp only [List.filterMap_cons, hA, List.flatten_cons, List.map_append, List.map_cons]
      cases hrows : p.2.rows with
      | nil =>
        simp only [List.map_nil, List.nil_append]
        exact (ih hrest).cons _
      | cons r rs =>
        have hrs : rs = [] := by
          rw [hrows] at hlen1
          simp only [List.length_cons] at hlen1
          exact List.eq_nil_of_length_eq_zero (by omega)
        subst hrs
        have hd : rowDateAt di (coerceRow di (coerceBatchRow p.2 r)) = some p.1 :=
          rowDateAt_coerceRow_of_date (hdates r (by rw [hrows]; exact List.mem_cons_self r []))
        simp only [List.map_cons, List.map_nil, List.singleton_append, hd]
        exact (ih hrest).cons₂ (some p.1)

/-- C2 (amended): the merged rows are unique by Date provided the existing
rows already are, the key dates of the offered batches are pairwise
distinct (in the source they are the keys of a dict), and every admissible
batch carries at most one record, stamped with its own key date.  As stated
in the design the claim fails, because a batch contributes one row per
month, all sharing one date; see the counterexample. -/
theorem claim_C2 (t : Table) (di : Nat) (B : List (Int × Batch)) (u : Table)
    (hdi : t.headers.indexOf? "Date" = some di)
    (ht : (t.rows.map (fun r => rowDateAt di (coerceRow di r))).Nodup)
    (hB : (B.map Prod.fst).Nodup)
    (hb : ∀ p ∈ B, admitBatch t.headers p.2 ≠ none →
      p.2.rows.length ≤ 1 ∧
        ∀ r ∈ p.2.rows, rowDateAt di (coerceBatchRow p.2 r) = some p.1)
    (h : reconcileE t B = Except.ok u) :
    (u.rows.map (fun r => rowDateAt di (coerceRow di r))).Nodup := by
  rcases reconcileE_ok_cases h with rfl | ⟨hc, hdup, hne, hae, hu⟩
  · exact ht
  · have hdi0 : (t.headers.indexOf? "Date").getD 0 = di := by
      rw [hdi]
      rfl
    have hrows : u.rows = mergedRows t di B := by
      rw [hu, hdi0]
    rw [hrows]
    have hsubadm := dates_of_admitted t di (neededB t di B)
      (fun p hp hpa => hb p (List.mem_filter.mp hp).1 hpa)
    have hleft : ((coercedRows t di).map (fun r => rowDateAt di (coerceRow di r))).Nodup := by
      rw [map_dateKey_coercedRows]
      exact ht
    have hrightN :
        ((admittedRows t di B).flatten.map (fun x => rowDateAt di (coerceRow di x))).Nodup := by
      apply List.Nodup.sublist hsubadm
      have h1 : ((neededB t di B).map Prod.fst).Nodup :=
        List.Nodup.sublist (List.Sublist.map Prod.fst (List.filter_sublist B)) hB
      have h2 := List.Nodup.map (Option.some_injective Int) h1
      rw [List.map_map] at h2
      exact h2
    have hdisj : List.Disjoint
        ((coercedRows t di).map (fun r => rowDateAt di (coerceRow di r)))
        ((admittedRows t di B).flatten.map (fun x => rowDateAt di (coerceRow di x))) := by
      intro x hx hx2
      rw [map_dateKey_coercedRows] at hx
      rcases List.mem_map.mp hx with ⟨r, hr, rfl⟩
      have hx3 := hsubadm.subset hx2
      rcases List.mem_map.mp hx3 with ⟨p, hp, hpe⟩
      have hnp : (!(tableDates t di).contains p.1) = true := (List.mem_filter.mp hp).2
      have hmemd : p.1 ∈ tableDates t di :=
        mem_tableDates.mpr ⟨r, hr, by rw [hpe]⟩
      have hcon := contains_iff.mpr hmemd
      rw [hcon] at hnp
      simp at hnp
    have hbig : ((((coercedRows t di) ++ (admittedRows t di B).flatten)).map
        (fun r => rowDateAt di (coerceRow di r))).Nodup := by
      rw [List.map_append]
      exact List.Nodup.append hleft hrightN hdisj
    have hmid : (((((coercedRows t di) ++ (admittedRows t di B).flatten)).filter
        (survives t.headers)).map (fun r => rowDateAt di (coerceRow di r))).Nodup :=
      List.Nodup.sublist
        (List.Sublist.map _ (List.filter_sublist _)) hbig
    have hperm := (sortByDate_perm di ((((coercedRows t di) ++
      (admittedRows t di B).flatten)).filter (survives t.headers))).map
      (fun r => rowDateAt di (coerceRow di r))
    exact hperm.nodup_iff.mpr hmid

/-- One batch, key date 7, with two records (two months) both dated day 7,
as the segmenter produces for a report with two month rows. -/
def c2B : List (Int × Batch) :=
  [(7, ⟨["Month", "Date"],
    [[Cell.text "Jan", Cell.date 7], [Cell.text "Feb", Cell.date 7]]⟩)]

/-- The merge of exT with c2B. -/
def c2T1 : Table :=
  ⟨["Month", "Date"],
    [[Cell.text "Jan", Cell.date 3], [Cell.text "Jan", Cell.date 7],
      [Cell.text "Feb", Cell.date 7]], 1, 1, 2, 4⟩

/-- Counterexample to C2 as stated: a table produced by the merge whose
rows are not unique by Date; the two admitted records share day 7. -/
theorem claim_C2_counterexample :
    reconcileE exT c2B = Except.ok c2T1 ∧
      ¬ (c2T1.rows.map (rowDateAt 1)).Nodup := by
  refine ⟨by decide, by decide⟩

/-- Witness for C2 at the concrete merge of exT with exB. -/
theorem claim_C2_witness :
    (exT1.rows.map (fun r => rowDateAt 1 (coerceRow 1 r))).Nodup :=
  claim_C2 exT 1 exB exT1 (by decide) (by decide) (by decide) (by decide) (by decide)

/-! ## The workbook loop and failure isolation -/

theorem reconcileT_headers (t : Table) (B : List (Int × Batch)) :
    (reconcileT t B).headers = t.headers := by
  unfold reconcileT
  cases hE : reconcileE t B with
  | error e => rfl
  | ok u =>
    rcases reconcileE_ok_cases hE with rfl | ⟨_, _, _, _, hu⟩
    · rfl
    · rw [hu]

/-- The merge raises only on a duplicated Date header. -/
theorem reconcileE_ok_of_count {t : Table} (B : List (Int × Batch))
    (h : ¬ 2 ≤ t.headers.count "Date") :
    reconcileE t B = Except.ok (reconcileT t B) := by
  have hE : ∃ u, reconcileE t B = Except.ok u := by
    unfold reconcileE
    by_cases hc : t.headers.contains "Date" = true
    · rw [if_pos hc, if_neg h]
      exact ⟨_, rfl⟩
    · rw [if_neg hc]
      exact ⟨_, rfl⟩
  rcases hE with ⟨u, hu⟩
  rw [hu]
  unfold reconcileT
  rw [hu]

/-- The loop over any list of sheet names refines the totalised loop when
no stored table has a duplicated Date header. -/
theorem updateAll_aux (B : List (Int × Batch)) (names : List String) :
    ∀ wb : Wb,
      (∀ e ∈ wb, ∀ t : Table, e.2 = some t → ¬ 2 ≤ t.headers.count "Date") →
      names.foldlM (stepSheet B) wb = Except.ok (names.foldl (stepSheetT B) wb) := by
  induction names with
  | nil =>
    intro wb _
    rfl
  | cons nm rest ih =>
    intro wb hnd
    rw [List.foldlM_cons, List.foldl_cons]
    cases hl : wb.lookup nm with
    | none =>
      have hstep : stepSheet B wb nm = Except.ok wb := by
        unfold stepSheet
        rw [hl]
      have hstepT : stepSheetT B wb nm = wb := by
        unfold stepSheetT
        rw [hl]
      rw [hstep, hstepT]
      exact ih wb hnd
    | some vo =>
      cases vo with
      | none =>
        have hstep : stepSheet B wb nm = Except.ok wb := by
          unfold stepSheet
          rw [hl]
        have hstepT : stepSheetT B wb nm = wb := by
          unfold stepSheetT
          rw [hl]
        rw [hstep, hstepT]
        exact ih wb hnd
      | some t =>
        have hmem : (nm, some t) ∈ wb := by
          rcases List.lookup_eq_some_iff.mp hl with ⟨l1, l2, heq, _⟩
          rw [heq]
          simp
        have hcnt : ¬ 2 ≤ t.headers.count "Date" := hnd (nm, some t) hmem t rfl
        have hok := reconcileE_ok_of_count (t := t) B hcnt
        have hstep : stepSheet B wb nm = Except.ok (setSheet wb nm (reconcileT t B)) := by
          unfold stepSheet
          rw [hl]
          show Except.map (setSheet wb nm) (reconcileE t B) = _
          rw [hok]
          rfl
        have hstepT : stepSheetT B wb nm = setSheet wb nm (reconcileT t B) := by
          unfold stepSheetT
          rw [hl]
        rw [hstep, hstepT]
        apply ih
        intro e he t2 he2
        unfold setSheet at he
        rcases List.mem_map.mp he with ⟨e0, he0, rfl⟩
        by_cases h0 : (e0.1 == nm) = true
        · rw [if_pos h0] at he2
          have he3 : reconcileT t B = t2 := by
            have : some (reconcileT t B) = some t2 := he2
            injection this
          rw [← he3, reconcileT_headers]
          exact hcnt
        · rw [if_neg h0] at he2
          exact hnd e0 he0 t2 he2

/-- C9 (amended): the summary update loop completes and updates each sheet
independently, skipping missing sheets, sheets without tables and tables
without a Date column, provided no stored table carries a duplicated Date
header; in that case the loop refines the per-sheet totalised loop.  As
stated the claim fails: nothing catches an exception at the per-product
boundary, so one raising table aborts the whole loop; see the
counterexample. -/
theorem claim_C9 (wb : Wb) (B : List (Int × Batch))
    (hnd : ∀ e ∈ wb, Option.all (fun t => decide (t.headers.count "Date" < 2)) e.2 = true) :
    updateAll wb B = Except.ok (updateAllT wb B) := by
  apply updateAll_aux
  intro e he t het
  have h1 := hnd e he
  rw [het] at h1
  have h2 : t.headers.count "Date" < 2 := by
    have : decide (t.headers.count "Date" < 2) = true := h1
    exact of_decide_eq_true this
  omega

/-- A malformed table whose headers carry Date twice: line 302 raises on it. -/
def dupT : Table := ⟨["Date", "Date"], [], 1, 1, 2, 1⟩

/-- A workbook whose first product sheet holds the malformed table and whose
second product sheet holds the healthy table exT. -/
def c9bad : Wb := [("SRW_US_Gulf", some dupT), ("HRW_Texas_Gulf", some exT)]

/-- Counterexample to C9 as stated: the raising first table aborts the whole
update, although the second table would have been merged and changed;
its reconciliation is prevented, so failure isolation is not per-product. -/
theorem claim_C9_counterexample :
    updateAll c9bad exB = Except.error () ∧
      reconcileE exT exB = Except.ok exT1 ∧ exT1 ≠ exT := by
  refine ⟨by decide, by decide, by decide⟩

/-- A table without a Date column: skipped with a warning, per-unit fatal
for that table only. -/
def noDateT : Table := ⟨["Month", "Value"], [[Cell.text "Jan", Cell.empty]], 1, 1, 2, 2⟩

/-- A workbook with one Date-less table and one healthy table. -/
def c9wb : Wb := [("SRW_US_Gulf", some noDateT), ("HRW_Texas_Gulf", some exT)]

/-- Witness for C9: with no duplicated Date header the loop completes even
though the first sheet has no Date column. -/
theorem claim_C9_witness : updateAll c9wb exB = Except.ok (updateAllT c9wb exB) :=
  claim_C9 c9wb exB (by decide)

end Fob
